import Mathlib

/-!
A shallow embedding of the music-server core: the reference-counted,
content-addressed playlist (`Playlist`), the playback bookkeeping of the
player (`Player`), and the session orchestrator (the `MusicServer.*`
operations).  Mutation is modelled by explicit state passing; Python
exceptions become `Option`/error fields; Python ints are `Int`; Python
floats (seconds) are `Rat`.  The set of blob files in the song directory is
modelled as the list `disk` of hashes, and commands sent to the playback
engine are recorded as a trace.
-/

/-- A queued song: client-supplied title plus the content hash that names
the blob on disk.  `duration` starts unknown and is measured later. -/
structure Song where
  title : String
  hash : Nat
  duration : Option Rat
deriving DecidableEq

/-- Association list modelling the Python dict `Playlist._refcount`
(hash → count, insertion order preserved, keys unique). -/
abbrev RefMap := List (Nat × Int)

/-- Dict lookup: first entry with the given key. -/
def lookupHash : RefMap → Nat → Option Int
  | [], _ => none
  | (k, v) :: rest, h => if k = h then some v else lookupHash rest h

/-- Dict assignment `rc[h] = v`: replace the existing entry in place, or
append a fresh entry at the end (Python dicts keep insertion order). -/
def setcount : RefMap → Nat → Int → RefMap
  | [], h, v => [(h, v)]
  | (k, c) :: rest, h, v =>
      if k = h then (h, v) :: rest else (k, c) :: setcount rest h v

/-- Dict deletion `del rc[h]`. -/
def delcount : RefMap → Nat → RefMap
  | [], _ => []
  | (k, c) :: rest, h => if k = h then rest else (k, c) :: delcount rest h

/-- The keys of the refcount map. -/
def keys (rc : RefMap) : List Nat := rc.map Prod.fst

/-- Writing the blob file for hash `h` (`Playlist._save`). -/
def insertDisk (disk : List Nat) (h : Nat) : List Nat :=
  if h ∈ disk then disk else disk ++ [h]

/-- Deleting the blob file for hash `h` (`os.unlink`). -/
def removeDisk : List Nat → Nat → List Nat
  | [], _ => []
  | x :: rest, h => if x = h then rest else x :: removeDisk rest h

/-- Number of queue slots referencing hash `k`. -/
def slotCount : List Song → Nat → Nat
  | [], _ => 0
  | s :: rest, k => (if s.hash = k then 1 else 0) + slotCount rest k

/-- The playlist state: song queue, refcount map, capacity (`_size`),
cursor (`_current`, a Python int), and the set of blob files on disk. -/
structure Playlist where
  queue : List Song
  refcount : RefMap
  size : Nat
  current : Int
  disk : List Nat
deriving DecidableEq

/-- `Playlist.__init__`: empty queue, empty map, cursor 0; the constructor
wipes the song directory (`_clear_all_songs`), so the disk starts empty. -/
def Playlist.init (size : Nat) : Playlist :=
  { queue := [], refcount := [], size := size, current := 0, disk := [] }

/-- `Playlist._remove_refcount`: decrement the count for `h`; at zero,
unlink the blob and drop the map entry.  The source raises `KeyError` when
`h` is not in the map; that branch is unreachable from reachable states and
is modelled as a no-op. -/
def releaseHash (rc : RefMap) (disk : List Nat) (h : Nat) :
    RefMap × List Nat :=
  match lookupHash rc h with
  | some c =>
      if c - 1 = 0 then (delcount rc h, removeDisk disk h)
      else (setcount rc h (c - 1), disk)
  | none => (rc, disk)

/-- The eviction loop body of `Playlist._remove_songs`: pop `n` songs from
the front, releasing each popped song's hash.  Popping an empty deque would
raise in Python; that branch is unreachable (`n` never exceeds the queue
length at the call site). -/
def evictFrom : List Song → RefMap → List Nat → Nat →
    List Song × RefMap × List Nat
  | q, rc, disk, 0 => (q, rc, disk)
  | [], rc, disk, _ + 1 => ([], rc, disk)
  | s :: rest, rc, disk, n + 1 =>
      let rd := releaseHash rc disk s.hash
      evictFrom rest rd.1 rd.2 n

/-- The number of songs `_remove_songs` evicts:
`min(current, max(0, len(queue) - size))`. -/
def Playlist.evictCount (p : Playlist) : Int :=
  min p.current (max 0 ((p.queue.length : Int) - (p.size : Int)))

/-- `Playlist._remove_songs`: remove `evictCount` songs from the front and
shift the cursor back by the same amount. -/
def Playlist.removeSongs (p : Playlist) : Playlist :=
  let toRemove : Int := p.evictCount
  let qrd := evictFrom p.queue p.refcount p.disk toRemove.toNat
  { p with queue := qrd.1, refcount := qrd.2.1, disk := qrd.2.2,
           current := p.current - toRemove }

/-- The try/except block of `Playlist.enqueue`: bump the count for a known
hash, or save the blob and create a map entry with count 1. -/
def bumpHash (rc : RefMap) (disk : List Nat) (h : Nat) :
    RefMap × List Nat :=
  match lookupHash rc h with
  | some c => (setcount rc h (c + 1), disk)
  | none => (setcount rc h 1, insertDisk disk h)

/-- `Playlist.enqueue`: hash the data (`f` stands for the sha256 digest
function), save the blob and create a map entry on first sight or bump the
count, append a fresh `Song` slot, then run the eviction routine. -/
def Playlist.enqueue (p : Playlist) (f : Nat → Nat) (title : String)
    (data : Nat) : Playlist :=
  let h := f data
  let rd := bumpHash p.refcount p.disk h
  let p2 : Playlist := { p with refcount := rd.1, disk := rd.2,
                                queue := p.queue ++ [⟨title, h, none⟩] }
  p2.removeSongs

/-- `Playlist.next`: advance the cursor, failing with `IndexError`
("no more songs") past the end, then run the eviction routine. -/
def Playlist.next (p : Playlist) : Option Playlist :=
  let newindex := p.current + 1
  if newindex > (p.queue.length : Int) - 1 then none
  else some ({ p with current := newindex }.removeSongs)

/-- `Playlist.prev`: move the cursor back, failing with `IndexError`
("no more songs") below zero.  No eviction here. -/
def Playlist.prev (p : Playlist) : Option Playlist :=
  let newindex := p.current - 1
  if newindex < 0 then none
  else some { p with current := newindex }

/-- `Playlist.remove`: bounds check rejects only `index > len - 1`; the
queue is then indexed Python-style (a negative index counts from the end,
raising `IndexError` when below `-len`).  The removed slot's hash is
released, the slot deleted, and the cursor adjusted: decremented when the
RAW `index` compares below it, then clamped into `[0, len - 1]` (0 when the
queue became empty). -/
def Playlist.remove (p : Playlist) (index : Int) : Option Playlist :=
  if index > (p.queue.length : Int) - 1 then none
  else
    let i : Int := if index < 0 then index + p.queue.length else index
    if 0 ≤ i ∧ i < (p.queue.length : Int) then
      match p.queue[i.toNat]? with
      | none => none
      | some song =>
        let rd := releaseHash p.refcount p.disk song.hash
        let q' := p.queue.eraseIdx i.toNat
        let cur1 := if index < p.current then p.current - 1 else p.current
        let cur2 := max (min cur1 ((q'.length : Int) - 1)) 0
        some { p with queue := q', refcount := rd.1, disk := rd.2,
                      current := cur2 }
    else none

/-- `Playlist.clear`: empty the queue and the map, wipe the song directory,
reset the cursor. -/
def Playlist.clear (p : Playlist) : Playlist :=
  { p with queue := [], refcount := [], disk := [], current := 0 }

/-- `Playlist.currentindex`: `None` on an empty queue, else the cursor. -/
def Playlist.currentindex (p : Playlist) : Option Int :=
  if p.queue = [] then none else some p.current

/-- `Playlist.current` (the property): `None` on an empty queue, else the
song under the cursor. -/
def Playlist.currentSong (p : Playlist) : Option Song :=
  if p.queue = [] then none else p.queue[p.current.toNat]?

/-- The logical playback states of `Player._state`. -/
inductive PState
  | stop
  | pause
  | play
deriving DecidableEq

/-- Python exception classes raised by the modelled operations. -/
inductive PyErr
  | indexError (msg : String)
  | valueError (msg : String)
  | attributeError
deriving DecidableEq

/-- The fields of `Player` relevant to seek/skip: last observed state, the
loaded song (whose duration may still be unknown), and the last observed
position in seconds. -/
structure Player where
  state : PState
  song : Option Song
  position : Option Rat
deriving DecidableEq

/-- `Player.seek`: reject fractions outside `[0, 1]`; otherwise require a
non-stopped state and a known duration (accessing `self._song.duration`
raises `AttributeError` when no song is loaded), and issue a flushing seek
to `duration * position` seconds (returned as the seek target). -/
def Player.seek (pl : Player) (position : Rat) : Except PyErr Rat :=
  if ¬ (0 ≤ position ∧ position ≤ 1) then
    Except.error (PyErr.valueError "wrong position value")
  else if pl.state ≠ PState.stop then
    match pl.song with
    | none => Except.error PyErr.attributeError
    | some s =>
      match s.duration with
      | some d => Except.ok (d * position)
      | none => Except.error (PyErr.valueError "player stopped")
  else Except.error (PyErr.valueError "player stopped")

/-- `Player.skipbackwards`: require non-stopped state, known duration AND a
known last position; seek to `max(position - 10, 0)` seconds. -/
def Player.skipbackwards (pl : Player) : Except PyErr Rat :=
  if pl.state ≠ PState.stop then
    match pl.song with
    | none => Except.error PyErr.attributeError
    | some s =>
      match s.duration, pl.position with
      | some _, some pos => Except.ok (max (pos - 10) 0)
      | some _, none => Except.error (PyErr.valueError "player stopped")
      | none, _ => Except.error (PyErr.valueError "player stopped")
  else Except.error (PyErr.valueError "player stopped")

/-- `Player.skipforwards`: same preconditions as `skipbackwards`; seek to
`min(position + 10, duration)` seconds. -/
def Player.skipforwards (pl : Player) : Except PyErr Rat :=
  if pl.state ≠ PState.stop then
    match pl.song with
    | none => Except.error PyErr.attributeError
    | some s =>
      match s.duration, pl.position with
      | some d, some pos => Except.ok (min (pos + 10) d)
      | some _, none => Except.error (PyErr.valueError "player stopped")
      | none, _ => Except.error (PyErr.valueError "player stopped")
  else Except.error (PyErr.valueError "player stopped")

/-- A command issued to the playback coordinator by the orchestrator. -/
inductive PCmd
  | stop
  | play (s : Option Song)
deriving DecidableEq

/-- Orchestrator-visible state: the playlist plus the player's playback
state (commands take effect once the polling loop observes them; the model
records the eventual state). -/
structure MState where
  playlist : Playlist
  pstate : PState
deriving DecidableEq

/-- Result of an orchestrator call: the state after the call (side effects
persist even when an exception propagates), the trace of commands issued to
the player, and the exception raised, if any. -/
structure MResult where
  state : MState
  cmds : List PCmd
  err : Option PyErr
deriving DecidableEq

/-- `MusicServer.next`: capture the player state, unconditionally stop the
player, advance the playlist cursor (propagating its `IndexError`), and
resume play on the new current song only when the captured state was
playing.  (Calling `play(None)` would raise `AttributeError`; unreachable
from reachable states.) -/
def MusicServer.next (m : MState) : MResult :=
  let captured := m.pstate
  let m1 : MState := { m with pstate := PState.stop }
  match m1.playlist.next with
  | none => { state := m1, cmds := [PCmd.stop],
              err := some (PyErr.indexError "no more songs") }
  | some pl =>
    let m2 : MState := { m1 with playlist := pl }
    if captured = PState.play then
      match pl.currentSong with
      | some s =>
          { state := { m2 with pstate := PState.play },
            cmds := [PCmd.stop, PCmd.play (some s)], err := none }
      | none => { state := m2, cmds := [PCmd.stop],
                  err := some PyErr.attributeError }
    else { state := m2, cmds := [PCmd.stop], err := none }

/-- `MusicServer.prev`: same stop-then-maybe-resume shape as `next`, moving
the cursor backwards. -/
def MusicServer.prev (m : MState) : MResult :=
  let captured := m.pstate
  let m1 : MState := { m with pstate := PState.stop }
  match m1.playlist.prev with
  | none => { state := m1, cmds := [PCmd.stop],
              err := some (PyErr.indexError "no more songs") }
  | some pl =>
    let m2 : MState := { m1 with playlist := pl }
    if captured = PState.play then
      match pl.currentSong with
      | some s =>
          { state := { m2 with pstate := PState.play },
            cmds := [PCmd.stop, PCmd.play (some s)], err := none }
      | none => { state := m2, cmds := [PCmd.stop],
                  err := some PyErr.attributeError }
    else { state := m2, cmds := [PCmd.stop], err := none }

/-- `MusicServer.remove`: reject negative indices with `ValueError`; when
the index equals the playlist's current index, capture the player state,
stop, remove the slot, and resume play only when the captured state was
playing and a current song remains; otherwise just remove the slot without
touching the player. -/
def MusicServer.remove (m : MState) (index : Int) : MResult :=
  if index < 0 then
    { state := m, cmds := [],
      err := some (PyErr.valueError "index must be non-negative") }
  else if m.playlist.currentindex = some index then
    let captured := m.pstate
    let m1 : MState := { m with pstate := PState.stop }
    match m1.playlist.remove index with
    | none => { state := m1, cmds := [PCmd.stop],
                err := some (PyErr.indexError "no more songs") }
    | some pl =>
      let m2 : MState := { m1 with playlist := pl }
      match captured, pl.currentSong with
      | PState.play, some s =>
          { state := { m2 with pstate := PState.play },
            cmds := [PCmd.stop, PCmd.play (some s)], err := none }
      | _, _ => { state := m2, cmds := [PCmd.stop], err := none }
  else
    match m.playlist.remove index with
    | none => { state := m, cmds := [],
                err := some (PyErr.indexError "no more songs") }
    | some pl =>
        { state := { m with playlist := pl }, cmds := [], err := none }

/-- `MusicServer.playereos` (end-of-stream callback): attempt `next` and
swallow any `IndexError`. -/
def MusicServer.playereos (m : MState) : MResult :=
  let r := MusicServer.next m
  match r.err with
  | some (PyErr.indexError _) => { r with err := none }
  | _ => r

/-- The playlist states reachable from a fresh playlist by the public
operations, for a fixed digest function `f`. -/
inductive Reachable (f : Nat → Nat) : Playlist → Prop
  | init (size : Nat) : Reachable f (Playlist.init size)
  | enqueue {p : Playlist} (title : String) (data : Nat) :
      Reachable f p → Reachable f (p.enqueue f title data)
  | next {p q : Playlist} : Reachable f p → p.next = some q → Reachable f q
  | prev {p q : Playlist} : Reachable f p → p.prev = some q → Reachable f q
  | remove {p q : Playlist} (index : Int) :
      Reachable f p → p.remove index = some q → Reachable f q
  | clear {p : Playlist} : Reachable f p → Reachable f p.clear

/-- Decidable cursor well-formedness: used as a hypothesis by the
orchestrator theorems. -/
def CursorOK (p : Playlist) : Prop :=
  0 ≤ p.current ∧ (p.queue ≠ [] → p.current < (p.queue.length : Int)) ∧
    (p.queue = [] → p.current = 0)

instance (p : Playlist) : Decidable (CursorOK p) := by
  unfold CursorOK
  infer_instance

/-- Decidable refcount/disk well-formedness: every map entry's count equals
the number of queue slots with that hash and is nonzero, every queued hash
has a map entry, the key list has no duplicates, and the blob files on disk
are exactly the keys of the map. -/
def RefcountOK (p : Playlist) : Prop :=
  (keys p.refcount).Nodup ∧ p.disk.Nodup ∧
  (∀ kv ∈ p.refcount,
      kv.2 = (slotCount p.queue kv.1 : Int) ∧ kv.2 ≠ 0) ∧
  (∀ s ∈ p.queue, (lookupHash p.refcount s.hash).isSome) ∧
  (∀ k ∈ p.disk, (lookupHash p.refcount k).isSome) ∧
  (∀ kv ∈ p.refcount, kv.1 ∈ p.disk)

instance (p : Playlist) : Decidable (RefcountOK p) := by
  unfold RefcountOK
  infer_instance

/-! ### Association-list and disk lemmas -/

theorem lookupHash_setcount (rc : RefMap) (h : Nat) (v : Int) (k : Nat) :
    lookupHash (setcount rc h v) k =
      if k = h then some v else lookupHash rc k := by
  induction rc with
  | nil =>
    by_cases hk : k = h
    · simp [setcount, lookupHash, hk]
    · simp [setcount, lookupHash, hk, Ne.symm hk]
  | cons kv rest ih =>
    obtain ⟨k', c⟩ := kv
    by_cases hkh : k' = h
    · subst hkh
      by_cases hk : k = k'
      · simp [setcount, lookupHash, hk]
      · simp [setcount, lookupHash, hk, Ne.symm hk]
    · simp only [setcount, if_neg hkh, lookupHash, ih]
      by_cases hkk : k' = k
      · have hk : ¬ k = h := fun hh => hkh (hkk.trans hh)
        simp [hkk, hk]
      · by_cases hk : k = h
        · have hk'h : ¬ k' = h := fun hh => hkk (hh.trans hk.symm)
          simp [hkk, hk, hk'h]
        · simp [hkk, hk]

theorem lookupHash_delcount_ne (rc : RefMap) (h k : Nat) (hne : k ≠ h) :
    lookupHash (delcount rc h) k = lookupHash rc k := by
  induction rc with
  | nil => simp [delcount]
  | cons kv rest ih =>
    obtain ⟨k', c⟩ := kv
    by_cases hh : k' = h
    · have hne' : ¬ h = k := Ne.symm hne
      simp [delcount, hh, lookupHash, hne']
    · simp [delcount, hh, lookupHash, ih]

theorem lookupHash_eq_none_iff (rc : RefMap) (k : Nat) :
    lookupHash rc k = none ↔ k ∉ keys rc := by
  induction rc with
  | nil => simp [lookupHash, keys]
  | cons kv rest ih =>
    obtain ⟨k', c⟩ := kv
    by_cases hk : k' = k
    · subst hk
      simp [lookupHash, keys]
    · simp [lookupHash, keys, hk, Ne.symm hk, ih]

theorem lookupHash_delcount_self (rc : RefMap) (h : Nat)
    (hn : (keys rc).Nodup) : lookupHash (delcount rc h) h = none := by
  induction rc with
  | nil => simp [delcount, lookupHash]
  | cons kv rest ih =>
    obtain ⟨k', c⟩ := kv
    simp only [keys, List.map_cons, List.nodup_cons] at hn
    by_cases hk : k' = h
    · subst hk
      simp only [delcount, if_pos rfl]
      exact (lookupHash_eq_none_iff rest k').2 hn.1
    · simp [delcount, lookupHash, hk, ih hn.2]

theorem keys_setcount (rc : RefMap) (h : Nat) (v : Int) :
    keys (setcount rc h v) =
      if h ∈ keys rc then keys rc else keys rc ++ [h] := by
  induction rc with
  | nil => simp [setcount, keys]
  | cons kv rest ih =>
    obtain ⟨k', c⟩ := kv
    by_cases hk : k' = h
    · subst hk
      simp [setcount, keys]
    · have hhk : ¬ h = k' := fun hh => hk hh.symm
      simp only [setcount, if_neg hk, keys, List.map_cons]
      rw [show List.map Prod.fst (setcount rest h v) =
            keys (setcount rest h v) from rfl, ih]
      by_cases hmem : h ∈ keys rest
      · simp only [keys] at hmem
        simp [keys, hmem, hhk]
      · simp only [keys] at hmem
        simp [keys, hmem, hhk]

theorem nodup_keys_setcount (rc : RefMap) (h : Nat) (v : Int)
    (hn : (keys rc).Nodup) : (keys (setcount rc h v)).Nodup := by
  rw [keys_setcount]
  by_cases hmem : h ∈ keys rc
  · simpa [hmem] using hn
  · simp only [hmem, if_false]
    exact hn.append (List.nodup_singleton h) (by simpa using hmem)

theorem mem_keys_delcount (rc : RefMap) (h k : Nat)
    (hk : k ∈ keys (delcount rc h)) : k ∈ keys rc := by
  induction rc with
  | nil => simpa [delcount] using hk
  | cons kv rest ih =>
    obtain ⟨k', c⟩ := kv
    by_cases hh : k' = h
    · rw [delcount, if_pos hh] at hk
      simp only [keys, List.map_cons, List.mem_cons]
      exact Or.inr hk
    · rw [delcount, if_neg hh] at hk
      simp only [keys, List.map_cons, List.mem_cons] at hk ⊢
      rcases hk with hk | hk
      · exact Or.inl hk
      · exact Or.inr (ih hk)

theorem nodup_keys_delcount (rc : RefMap) (h : Nat)
    (hn : (keys rc).Nodup) : (keys (delcount rc h)).Nodup := by
  induction rc with
  | nil => simp [delcount, keys]
  | cons kv rest ih =>
    obtain ⟨k', c⟩ := kv
    simp only [keys, List.map_cons, List.nodup_cons] at hn
    by_cases hh : k' = h
    · subst hh
      simpa [delcount] using hn.2
    · simp only [delcount, if_neg hh, keys, List.map_cons, List.nodup_cons]
      exact ⟨fun hmem => hn.1 (mem_keys_delcount rest h k' hmem), ih hn.2⟩

theorem mem_insertDisk (disk : List Nat) (h k : Nat) :
    k ∈ insertDisk disk h ↔ k ∈ disk ∨ k = h := by
  unfold insertDisk
  by_cases hmem : h ∈ disk
  · simp only [if_pos hmem]
    constructor
    · exact Or.inl
    · rintro (hk | rfl)
      · exact hk
      · exact hmem
  · simp [if_neg hmem]

theorem nodup_insertDisk (disk : List Nat) (h : Nat)
    (hn : disk.Nodup) : (insertDisk disk h).Nodup := by
  unfold insertDisk
  by_cases hmem : h ∈ disk
  · simpa [hmem] using hn
  · simp only [if_neg hmem]
    exact hn.append (List.nodup_singleton h) (by simpa using hmem)

theorem mem_removeDisk (disk : List Nat) (h k : Nat) (hn : disk.Nodup) :
    k ∈ removeDisk disk h ↔ k ∈ disk ∧ k ≠ h := by
  induction disk with
  | nil => simp [removeDisk]
  | cons x rest ih =>
    simp only [List.nodup_cons] at hn
    by_cases hx : x = h
    · subst hx
      simp only [removeDisk, if_pos rfl, List.mem_cons]
      constructor
      · intro hk
        exact ⟨Or.inr hk, fun hh => hn.1 (hh ▸ hk)⟩
      · rintro ⟨hk | hk, hne⟩
        · exact absurd hk hne
        · exact hk
    · simp only [removeDisk, if_neg hx, List.mem_cons, ih hn.2]
      constructor
      · rintro (rfl | ⟨hk, hne⟩)
        · exact ⟨Or.inl rfl, fun hh => hx hh⟩
        · exact ⟨Or.inr hk, hne⟩
      · rintro ⟨hk | hk, hne⟩
        · exact Or.inl hk
        · exact Or.inr ⟨hk, hne⟩

theorem nodup_removeDisk (disk : List Nat) (h : Nat)
    (hn : disk.Nodup) : (removeDisk disk h).Nodup := by
  induction disk with
  | nil => simp [removeDisk]
  | cons x rest ih =>
    simp only [List.nodup_cons] at hn
    by_cases hx : x = h
    · subst hx
      simpa [removeDisk] using hn.2
    · simp only [removeDisk, if_neg hx, List.nodup_cons]
      exact ⟨fun hmem => hn.1 (mem_removeDisk rest h x hn.2 |>.1 hmem).1,
        ih hn.2⟩

/-! ### slotCount lemmas -/

theorem slotCount_append (a b : List Song) (k : Nat) :
    slotCount (a ++ b) k = slotCount a k + slotCount b k := by
  induction a with
  | nil => simp [slotCount]
  | cons s rest ih =>
    simp only [List.cons_append, slotCount, List.append_eq, ih]
    omega

theorem slotCount_ne_zero_iff (q : List Song) (k : Nat) :
    slotCount q k ≠ 0 ↔ ∃ s ∈ q, s.hash = k := by
  induction q with
  | nil => simp [slotCount]
  | cons s rest ih =>
    by_cases hs : s.hash = k
    · simp [slotCount, hs]
    · simp only [slotCount, if_neg hs, Nat.zero_add, ih, List.mem_cons]
      constructor
      · rintro ⟨t, ht, rfl⟩
        exact ⟨t, Or.inr ht, rfl⟩
      · rintro ⟨t, rfl | ht, rfl⟩
        · exact absurd rfl hs
        · exact ⟨t, ht, rfl⟩

/-! ### Abstract refcount/disk models -/

/-- The refcount map represents the count function `cnt` exactly: a key is
present iff its count is nonzero, with the count as value. -/
def RCModels (rc : RefMap) (cnt : Nat → Nat) : Prop :=
  ∀ k, lookupHash rc k =
    if cnt k = 0 then none else some ((cnt k : Nat) : Int)

/-- The disk holds a blob exactly for the hashes with nonzero count. -/
def DiskModels (disk : List Nat) (cnt : Nat → Nat) : Prop :=
  ∀ k, k ∈ disk ↔ cnt k ≠ 0

theorem RCModels_congr {rc : RefMap} {c1 c2 : Nat → Nat}
    (hc : ∀ k, c1 k = c2 k) (hm : RCModels rc c1) : RCModels rc c2 :=
  fun k => by rw [← hc k]; exact hm k

theorem DiskModels_congr {disk : List Nat} {c1 c2 : Nat → Nat}
    (hc : ∀ k, c1 k = c2 k) (hm : DiskModels disk c1) : DiskModels disk c2 :=
  fun k => by rw [← hc k]; exact hm k

theorem lookupHash_some_mem {rc : RefMap} {k : Nat} {v : Int}
    (hl : lookupHash rc k = some v) : (k, v) ∈ rc := by
  induction rc with
  | nil => simp [lookupHash] at hl
  | cons kv rest ih =>
    obtain ⟨k', c⟩ := kv
    by_cases hk : k' = k
    · simp only [lookupHash, if_pos hk] at hl
      have hc := Option.some.inj hl
      exact List.mem_cons.2 (Or.inl (by simp [hk, hc]))
    · simp only [lookupHash, if_neg hk] at hl
      exact List.mem_cons_of_mem _ (ih hl)

theorem lookupHash_of_mem_nodup {rc : RefMap} {k : Nat} {v : Int}
    (hn : (keys rc).Nodup) (hm : (k, v) ∈ rc) :
    lookupHash rc k = some v := by
  induction rc with
  | nil => simp at hm
  | cons kv rest ih =>
    obtain ⟨k', c⟩ := kv
    simp only [keys, List.map_cons, List.nodup_cons] at hn
    rcases List.mem_cons.1 hm with hm | hm
    · obtain ⟨rfl, rfl⟩ := Prod.mk.injEq .. ▸ (Prod.ext_iff.1 hm)
      simp [lookupHash]
    · have hk : ¬ k' = k := by
        rintro rfl
        exact hn.1 (by simpa [keys] using List.mem_map_of_mem Prod.fst hm)
      simp only [lookupHash, if_neg hk]
      exact ih hn.2 hm

/-- Effect of `releaseHash` on a modelled state: the count of `h` drops by
one; at zero the map entry and the blob disappear. -/
theorem releaseHash_models {rc : RefMap} {disk : List Nat} {cnt : Nat → Nat}
    (hknd : (keys rc).Nodup) (hdnd : disk.Nodup)
    (hrc : RCModels rc cnt) (hdisk : DiskModels disk cnt)
    (h : Nat) (hpos : cnt h ≠ 0) :
    (keys (releaseHash rc disk h).1).Nodup ∧
    (releaseHash rc disk h).2.Nodup ∧
    RCModels (releaseHash rc disk h).1
      (fun k => if k = h then cnt k - 1 else cnt k) ∧
    DiskModels (releaseHash rc disk h).2
      (fun k => if k = h then cnt k - 1 else cnt k) := by
  have hlook : lookupHash rc h = some ((cnt h : Nat) : Int) := by
    rw [hrc h, if_neg hpos]
  by_cases h1 : cnt h = 1
  · have hred : releaseHash rc disk h = (delcount rc h, removeDisk disk h) := by
      simp [releaseHash, hlook, h1]
    rw [hred]
    refine ⟨nodup_keys_delcount rc h hknd, nodup_removeDisk disk h hdnd,
      fun k => ?_, fun k => ?_⟩
    · by_cases hk : k = h
      · subst hk
        simp [lookupHash_delcount_self rc k hknd, h1]
      · simp only [if_neg hk]
        rw [lookupHash_delcount_ne rc h k hk]
        exact hrc k
    · rw [mem_removeDisk disk h k hdnd]
      by_cases hk : k = h
      · subst hk
        simp [h1]
      · simp [hk, hdisk k]
  · have hnz : ¬ ((cnt h : Nat) : Int) - 1 = 0 := by
      intro hh
      have h2 : ((cnt h : Nat) : Int) = 1 := by linarith
      exact h1 (by exact_mod_cast h2)
    have hred : releaseHash rc disk h =
        (setcount rc h (((cnt h : Nat) : Int) - 1), disk) := by
      simp [releaseHash, hlook, hnz]
    rw [hred]
    refine ⟨nodup_keys_setcount rc h _ hknd, hdnd, fun k => ?_, fun k => ?_⟩
    · rw [lookupHash_setcount]
      by_cases hk : k = h
      · have h1le : 1 ≤ cnt h := Nat.one_le_iff_ne_zero.2 hpos
        have hc1 : ¬ cnt h - 1 = 0 := by omega
        rw [if_pos hk, hk]
        simp [hc1, Nat.cast_sub h1le]
      · rw [if_neg hk]
        simp only [if_neg hk]
        exact hrc k
    · by_cases hk : k = h
      · subst hk
        have hc1 : cnt k - 1 ≠ 0 := by omega
        simp [hc1, hdisk k, hpos]
      · simp [hk, hdisk k]

/-- Effect of `bumpHash` on a modelled state: the count of `h` goes up by
one; a fresh hash gets a blob on disk and a map entry with count one. -/
theorem bumpHash_models {rc : RefMap} {disk : List Nat} {cnt : Nat → Nat}
    (hknd : (keys rc).Nodup) (hdnd : disk.Nodup)
    (hrc : RCModels rc cnt) (hdisk : DiskModels disk cnt) (h : Nat) :
    (keys (bumpHash rc disk h).1).Nodup ∧
    (bumpHash rc disk h).2.Nodup ∧
    RCModels (bumpHash rc disk h).1
      (fun k => if k = h then cnt k + 1 else cnt k) ∧
    DiskModels (bumpHash rc disk h).2
      (fun k => if k = h then cnt k + 1 else cnt k) := by
  by_cases hz : cnt h = 0
  · have hlook : lookupHash rc h = none := by rw [hrc h, if_pos hz]
    have hred : bumpHash rc disk h = (setcount rc h 1, insertDisk disk h) := by
      simp [bumpHash, hlook]
    rw [hred]
    refine ⟨nodup_keys_setcount rc h _ hknd, nodup_insertDisk disk h hdnd,
      fun k => ?_, fun k => ?_⟩
    · rw [lookupHash_setcount]
      by_cases hk : k = h
      · rw [if_pos hk, hk]
        simp [hz]
      · rw [if_neg hk]
        simp only [if_neg hk]
        exact hrc k
    · rw [mem_insertDisk]
      by_cases hk : k = h
      · subst hk
        simp
      · simp [hk, hdisk k]
  · have hlook : lookupHash rc h = some ((cnt h : Nat) : Int) := by
      rw [hrc h, if_neg hz]
    have hred : bumpHash rc disk h =
        (setcount rc h (((cnt h : Nat) : Int) + 1), disk) := by
      simp [bumpHash, hlook]
    rw [hred]
    refine ⟨nodup_keys_setcount rc h _ hknd, hdnd, fun k => ?_, fun k => ?_⟩
    · rw [lookupHash_setcount]
      by_cases hk : k = h
      · have hnz1 : ¬ cnt h + 1 = 0 := by omega
        rw [if_pos hk, hk]
        simp [hnz1]
      · rw [if_neg hk]
        simp only [if_neg hk]
        exact hrc k
    · by_cases hk : k = h
      · subst hk
        simp [hdisk k, hz]
      · simp [hk, hdisk k]

theorem slotCount_pos_of_mem {q : List Song} {s : Song} (hs : s ∈ q) :
    slotCount q s.hash ≠ 0 :=
  (slotCount_ne_zero_iff q s.hash).2 ⟨s, hs, rfl⟩

theorem evictFrom_zero (q : List Song) (rc : RefMap) (disk : List Nat) :
    evictFrom q rc disk 0 = (q, rc, disk) := by
  cases q <;> rfl

theorem evictFrom_cons_succ (s : Song) (rest : List Song) (rc : RefMap)
    (disk : List Nat) (n : Nat) :
    evictFrom (s :: rest) rc disk (n + 1) =
      evictFrom rest (releaseHash rc disk s.hash).1
        (releaseHash rc disk s.hash).2 n := rfl

/-- The eviction loop drops exactly `n` songs from the front and keeps the
refcount map and the disk modelling the remaining queue. -/
theorem evictFrom_spec :
    ∀ (n : Nat) (q : List Song) (rc : RefMap) (disk : List Nat),
    n ≤ q.length → (keys rc).Nodup → disk.Nodup →
    RCModels rc (slotCount q) → DiskModels disk (slotCount q) →
    (evictFrom q rc disk n).1 = q.drop n ∧
    (keys (evictFrom q rc disk n).2.1).Nodup ∧
    (evictFrom q rc disk n).2.2.Nodup ∧
    RCModels (evictFrom q rc disk n).2.1 (slotCount (q.drop n)) ∧
    DiskModels (evictFrom q rc disk n).2.2 (slotCount (q.drop n)) := by
  intro n
  induction n with
  | zero =>
    intro q rc disk _ hknd hdnd hrc hdisk
    rw [evictFrom_zero]
    exact ⟨rfl, hknd, hdnd, hrc, hdisk⟩
  | succ n ih =>
    intro q rc disk hlen hknd hdnd hrc hdisk
    match q with
    | [] => simp at hlen
    | s :: rest =>
      have hmem : s ∈ s :: rest := List.mem_cons_self _ _
      obtain ⟨h1, h2, h3, h4⟩ := releaseHash_models hknd hdnd hrc hdisk
        s.hash (slotCount_pos_of_mem hmem)
      have hcongr : ∀ k,
          (if k = s.hash then slotCount (s :: rest) k - 1
           else slotCount (s :: rest) k) = slotCount rest k := by
        intro k
        by_cases hk : k = s.hash
        · subst hk
          simp [slotCount]
        · have hk' : ¬ s.hash = k := fun hh => hk hh.symm
          simp [slotCount, hk, hk']
      have h4' := RCModels_congr hcongr h3
      have h5' := DiskModels_congr hcongr h4
      have hlen' : n ≤ rest.length := by simpa using hlen
      obtain ⟨g1, g2, g3, g4, g5⟩ :=
        ih rest (releaseHash rc disk s.hash).1
          (releaseHash rc disk s.hash).2 hlen' h1 h2 h4' h5'
      rw [evictFrom_cons_succ, List.drop_succ_cons]
      exact ⟨g1, g2, g3, g4, g5⟩

/-! ### Playlist invariants -/

/-- The refcount map and the disk model the queue's hash multiset. -/
def Playlist.Models (p : Playlist) : Prop :=
  (keys p.refcount).Nodup ∧ p.disk.Nodup ∧
  RCModels p.refcount (slotCount p.queue) ∧
  DiskModels p.disk (slotCount p.queue)

/-- Full playlist invariant: modelling plus cursor well-formedness. -/
def Playlist.Inv (p : Playlist) : Prop := p.Models ∧ CursorOK p

theorem evictCount_nonneg (p : Playlist) (h0 : 0 ≤ p.current) :
    0 ≤ p.evictCount :=
  le_min h0 (le_max_left 0 _)

theorem evictCount_le_current (p : Playlist) : p.evictCount ≤ p.current :=
  min_le_left _ _

theorem evictCount_toNat_le_length (p : Playlist) :
    p.evictCount.toNat ≤ p.queue.length := by
  have h1 : p.evictCount ≤ max 0 ((p.queue.length : Int) - (p.size : Int)) :=
    min_le_right _ _
  have h2 : max 0 ((p.queue.length : Int) - (p.size : Int)) ≤
      (p.queue.length : Int) := by
    apply max_le
    · exact Int.ofNat_nonneg _
    · have : (0 : Int) ≤ (p.size : Int) := Int.ofNat_nonneg _
      linarith
  exact Int.toNat_le.2 (le_trans h1 h2)

theorem evictFrom_queue :
    ∀ (n : Nat) (q : List Song) (rc : RefMap) (disk : List Nat),
    n ≤ q.length → (evictFrom q rc disk n).1 = q.drop n := by
  intro n
  induction n with
  | zero =>
    intro q rc disk _
    rw [evictFrom_zero]
    simp
  | succ n ih =>
    intro q rc disk hlen
    match q with
    | [] => simp at hlen
    | s :: rest =>
      rw [evictFrom_cons_succ, List.drop_succ_cons]
      exact ih rest _ _ (by simpa using hlen)

/-- The queue and cursor effect of `_remove_songs`, independent of the
refcount state. -/
theorem Playlist.removeSongs_queue (p : Playlist) :
    (p.removeSongs).queue = p.queue.drop p.evictCount.toNat ∧
    (p.removeSongs).current = p.current - p.evictCount ∧
    (p.removeSongs).size = p.size := by
  refine ⟨?_, rfl, rfl⟩
  exact evictFrom_queue _ _ _ _ (evictCount_toNat_le_length p)

/-- `_remove_songs` on a modelled state: the dropped prefix is released. -/
theorem Playlist.removeSongs_models {p : Playlist} (hm : p.Models) :
    (p.removeSongs).Models := by
  obtain ⟨h1, h2, h3, h4⟩ := hm
  obtain ⟨g1, g2, g3, g4, g5⟩ := evictFrom_spec p.evictCount.toNat p.queue
    p.refcount p.disk (evictCount_toNat_le_length p) h1 h2 h3 h4
  refine ⟨g2, g3, ?_, ?_⟩
  · have hq : (p.removeSongs).queue = p.queue.drop p.evictCount.toNat :=
      (Playlist.removeSongs_queue p).1
    rw [hq]
    exact g4
  · have hq : (p.removeSongs).queue = p.queue.drop p.evictCount.toNat :=
      (Playlist.removeSongs_queue p).1
    rw [hq]
    exact g5

/-- `_remove_songs` preserves the cursor invariant. -/
theorem Playlist.removeSongs_cursor {p : Playlist} (hc : CursorOK p) :
    CursorOK p.removeSongs := by
  obtain ⟨h0, hlt, hemp⟩ := hc
  have he0 : 0 ≤ p.evictCount := evictCount_nonneg p h0
  have hec : p.evictCount ≤ p.current := evictCount_le_current p
  have hcast : ((p.evictCount.toNat : Nat) : Int) = p.evictCount :=
    Int.toNat_of_nonneg he0
  obtain ⟨hq, hcur, _⟩ := Playlist.removeSongs_queue p
  by_cases hne : p.queue = []
  · have hcur0 : p.current = 0 := hemp hne
    have he : p.evictCount = 0 := le_antisymm (hcur0 ▸ hec) he0
    refine ⟨?_, ?_, ?_⟩
    · rw [hcur, he, hcur0]
      norm_num
    · intro hq2
      exfalso
      apply hq2
      rw [hq, hne]
      simp
    · intro _
      rw [hcur, he, hcur0]
      norm_num
  · have hltlen : p.current < (p.queue.length : Int) := hlt hne
    have hlen' : (p.removeSongs).queue.length =
        p.queue.length - p.evictCount.toNat := by
      rw [hq, List.length_drop]
    refine ⟨?_, ?_, ?_⟩
    · rw [hcur]
      omega
    · intro _
      rw [hcur]
      have hlen2 : ((p.removeSongs).queue.length : Int) =
          ((p.queue.length - p.evictCount.toNat : Nat) : Int) := by
        rw [hlen']
      rw [hlen2]
      omega
    · intro habs
      exfalso
      have hl0 : (p.removeSongs).queue.length = 0 := by rw [habs]; rfl
      rw [hlen'] at hl0
      omega

theorem Playlist.init_inv (size : Nat) : (Playlist.init size).Inv := by
  refine ⟨⟨List.nodup_nil, List.nodup_nil, fun k => ?_, fun k => ?_⟩,
    le_refl 0, fun hq => absurd rfl hq, fun _ => rfl⟩
  · simp [Playlist.init, lookupHash, slotCount]
  · simp [Playlist.init, slotCount]

theorem Playlist.clear_inv (p : Playlist) : p.clear.Inv := by
  refine ⟨⟨List.nodup_nil, List.nodup_nil, fun k => ?_, fun k => ?_⟩,
    le_refl 0, fun hq => absurd rfl hq, fun _ => rfl⟩
  · simp [Playlist.clear, lookupHash, slotCount]
  · simp [Playlist.clear, slotCount]

theorem Playlist.enqueue_inv {p : Playlist} (hi : p.Inv) (f : Nat → Nat)
    (title : String) (data : Nat) : (p.enqueue f title data).Inv := by
  obtain ⟨⟨h1, h2, h3, h4⟩, hc⟩ := hi
  obtain ⟨b1, b2, b3, b4⟩ := bumpHash_models h1 h2 h3 h4 (f data)
  have hcongr : ∀ k,
      (if k = f data then slotCount p.queue k + 1 else slotCount p.queue k) =
        slotCount (p.queue ++ [⟨title, f data, none⟩]) k := by
    intro k
    rw [slotCount_append]
    by_cases hk : k = f data
    · rw [if_pos hk]
      simp only [slotCount]
      rw [if_pos hk.symm]
    · rw [if_neg hk]
      simp only [slotCount]
      rw [if_neg (fun hh => hk hh.symm)]
      omega
  have hm2 :
      Playlist.Models { p with refcount := (bumpHash p.refcount p.disk (f data)).1,
                               disk := (bumpHash p.refcount p.disk (f data)).2,
                               queue := p.queue ++ [⟨title, f data, none⟩] } :=
    ⟨b1, b2, RCModels_congr hcongr b3, DiskModels_congr hcongr b4⟩
  have hc2 :
      CursorOK { p with refcount := (bumpHash p.refcount p.disk (f data)).1,
                        disk := (bumpHash p.refcount p.disk (f data)).2,
                        queue := p.queue ++ [⟨title, f data, none⟩] } := by
    obtain ⟨h0, hlt, hemp⟩ := hc
    refine ⟨h0, fun _ => ?_, fun habs => ?_⟩
    · have hlen : (p.queue ++ [(⟨title, f data, none⟩ : Song)]).length =
          p.queue.length + 1 := by simp
      show p.current < ((p.queue ++ [(⟨title, f data, none⟩ : Song)]).length : Int)
      rw [hlen]
      by_cases hq : p.queue = []
      · have hc0 := hemp hq
        have hl0 : p.queue.length = 0 := by rw [hq]; rfl
        omega
      · have := hlt hq
        omega
    · exfalso
      have hlen : (p.queue ++ [(⟨title, f data, none⟩ : Song)]).length =
          p.queue.length + 1 := by simp
      have hq0 : (p.queue ++ [(⟨title, f data, none⟩ : Song)]).length = 0 := by
        rw [show p.queue ++ [(⟨title, f data, none⟩ : Song)] = [] from habs]
        rfl
      omega
  exact ⟨Playlist.removeSongs_models hm2, Playlist.removeSongs_cursor hc2⟩

theorem Playlist.next_inv {p q : Playlist} (hi : p.Inv)
    (hn : p.next = some q) : q.Inv := by
  unfold Playlist.next at hn
  by_cases hcond : p.current + 1 > (p.queue.length : Int) - 1
  · rw [if_pos hcond] at hn
    cases hn
  · rw [if_neg hcond] at hn
    obtain rfl := Option.some.inj hn
    obtain ⟨⟨h1, h2, h3, h4⟩, h0, hlt, hemp⟩ := hi
    push_neg at hcond
    have hm1 : Playlist.Models { p with current := p.current + 1 } :=
      ⟨h1, h2, h3, h4⟩
    have hc1 : CursorOK { p with current := p.current + 1 } := by
      refine ⟨?_, fun _ => ?_, fun hq => ?_⟩
      · show (0 : Int) ≤ p.current + 1
        omega
      · show p.current + 1 < (p.queue.length : Int)
        omega
      · exfalso
        have hl0 : p.queue.length = 0 := by
          rw [show p.queue = [] from hq]; rfl
        omega
    exact ⟨Playlist.removeSongs_models hm1, Playlist.removeSongs_cursor hc1⟩

theorem Playlist.prev_inv {p q : Playlist} (hi : p.Inv)
    (hn : p.prev = some q) : q.Inv := by
  unfold Playlist.prev at hn
  by_cases hcond : p.current - 1 < 0
  · rw [if_pos hcond] at hn
    cases hn
  · rw [if_neg hcond] at hn
    obtain rfl := Option.some.inj hn
    obtain ⟨⟨h1, h2, h3, h4⟩, h0, hlt, hemp⟩ := hi
    push_neg at hcond
    refine ⟨⟨h1, h2, h3, h4⟩, ?_, fun hq => ?_, fun hq => ?_⟩
    · show (0 : Int) ≤ p.current - 1
      omega
    · have := hlt hq
      show p.current - 1 < (p.queue.length : Int)
      omega
    · have := hemp hq
      show p.current - 1 = 0
      omega

theorem Playlist.remove_inv {p q : Playlist} (hi : p.Inv) (idx : Int)
    (hn : p.remove idx = some q) : q.Inv := by
  unfold Playlist.remove at hn
  by_cases hb : idx > (p.queue.length : Int) - 1
  · rw [if_pos hb] at hn
    cases hn
  · rw [if_neg hb] at hn
    by_cases hir : 0 ≤ (if idx < 0 then idx + p.queue.length else idx) ∧
        (if idx < 0 then idx + p.queue.length else idx) <
          (p.queue.length : Int)
    · rw [if_pos hir] at hn
      have hlt : (if idx < 0 then idx + p.queue.length else idx).toNat <
          p.queue.length := by omega
      rw [List.getElem?_eq_getElem hlt] at hn
      obtain rfl := Option.some.inj hn
      obtain ⟨⟨h1, h2, h3, h4⟩, h0, hltc, hemp⟩ := hi
      set j : Nat := (if idx < 0 then idx + p.queue.length else idx).toNat
        with hj
      set song : Song := p.queue[j] with hsong
      have hsplit : p.queue =
          p.queue.take j ++ song :: p.queue.drop (j + 1) := by
        conv_lhs => rw [← List.take_append_drop j p.queue]
        rw [List.drop_eq_getElem_cons hlt]
      have hmem : song ∈ p.queue := List.getElem_mem hlt
      obtain ⟨b1, b2, b3, b4⟩ := releaseHash_models h1 h2 h3 h4 song.hash
        (slotCount_pos_of_mem hmem)
      have harith : ∀ k,
          (if k = song.hash then slotCount p.queue k - 1
           else slotCount p.queue k) =
            slotCount (p.queue.eraseIdx j) k := by
        intro k
        have hone : slotCount p.queue k =
            slotCount (p.queue.take j) k +
            ((if song.hash = k then 1 else 0) +
              slotCount (p.queue.drop (j + 1)) k) := by
          conv_lhs => rw [hsplit]
          rw [slotCount_append]
          rfl
        rw [List.eraseIdx_eq_take_drop_succ, slotCount_append]
        by_cases hk : k = song.hash
        · rw [if_pos hk]
          rw [if_pos hk.symm] at hone
          omega
        · rw [if_neg hk]
          rw [if_neg (fun hh => hk hh.symm)] at hone
          omega
      have hm2 := RCModels_congr harith b3
      have hd2 := DiskModels_congr harith b4
      have hlen' : (p.queue.eraseIdx j).length + 1 = p.queue.length :=
        List.length_eraseIdx_add_one hlt
      refine ⟨⟨b1, b2, hm2, hd2⟩, ?_, fun hne => ?_, fun hq => ?_⟩
      · exact le_max_right _ _
      · show max (min (if idx < p.current then p.current - 1 else p.current)
            (((p.queue.eraseIdx j).length : Int) - 1)) 0 <
          ((p.queue.eraseIdx j).length : Int)
        have hne0 : (p.queue.eraseIdx j).length ≠ 0 := by
          intro habs
          exact hne (List.length_eq_zero.1 habs)
        have h1le : 1 ≤ (p.queue.eraseIdx j).length := by omega
        apply max_lt
        · apply lt_of_le_of_lt (min_le_right _ _)
          omega
        · omega
      · show max (min (if idx < p.current then p.current - 1 else p.current)
            (((p.queue.eraseIdx j).length : Int) - 1)) 0 = 0
        have hl0 : (p.queue.eraseIdx j).length = 0 := by
          rw [show p.queue.eraseIdx j = [] from hq]
          rfl
        have hmin : min (if idx < p.current then p.current - 1 else p.current)
            (((p.queue.eraseIdx j).length : Int) - 1) ≤ 0 := by
          apply le_trans (min_le_right _ _)
          omega
        omega
    · rw [if_neg hir] at hn
      cases hn

/-- Every reachable playlist state satisfies the full invariant. -/
theorem Playlist.reachable_inv {f : Nat → Nat} {p : Playlist}
    (hr : Reachable f p) : p.Inv := by
  induction hr with
  | init size => exact Playlist.init_inv size
  | enqueue title data _ ih => exact Playlist.enqueue_inv ih f title data
  | next _ hn ih => exact Playlist.next_inv ih hn
  | prev _ hn ih => exact Playlist.prev_inv ih hn
  | remove index _ hn ih => exact Playlist.remove_inv ih index hn
  | clear _ _ => exact Playlist.clear_inv _

theorem RCModels.getD_eq {rc : RefMap} {cnt : Nat → Nat}
    (h : RCModels rc cnt) (k : Nat) :
    (lookupHash rc k).getD 0 = (cnt k : Int) := by
  rw [h k]
  by_cases hk : cnt k = 0
  · simp [hk]
  · simp [hk]

theorem RCModels.isSome_iff {rc : RefMap} {cnt : Nat → Nat}
    (h : RCModels rc cnt) (k : Nat) :
    (lookupHash rc k).isSome ↔ cnt k ≠ 0 := by
  rw [h k]
  by_cases hk : cnt k = 0 <;> simp [hk]

theorem Playlist.models_of_refcountOK {p : Playlist} (h : RefcountOK p) :
    p.Models := by
  obtain ⟨hnd, hdn, hent, hque, hdl, hdr⟩ := h
  have hrc : RCModels p.refcount (slotCount p.queue) := by
    intro k
    cases hk : lookupHash p.refcount k with
    | some v =>
      have hmem := lookupHash_some_mem hk
      obtain ⟨hv, hnz⟩ := hent (k, v) hmem
      have hslot : slotCount p.queue k ≠ 0 := by
        intro habs
        apply hnz
        rw [hv, habs]
        rfl
      rw [if_neg hslot, ← hv]
    | none =>
      have hslot : slotCount p.queue k = 0 := by
        by_contra habs
        obtain ⟨s, hs, rfl⟩ := (slotCount_ne_zero_iff p.queue k).1 habs
        have := hque s hs
        rw [hk] at this
        exact absurd this (by simp)
      rw [if_pos hslot]
  refine ⟨hnd, hdn, hrc, fun k => ?_⟩
  constructor
  · intro hkd
    have hs := hdl k hkd
    exact (RCModels.isSome_iff hrc k).1 hs
  · intro hslot
    have hs := (RCModels.isSome_iff hrc k).2 hslot
    cases hk : lookupHash p.refcount k with
    | none => rw [hk] at hs; exact absurd hs (by simp)
    | some v => exact hdr (k, v) (lookupHash_some_mem hk)

theorem Playlist.refcountOK_of_models {p : Playlist} (h : p.Models) :
    RefcountOK p := by
  obtain ⟨hnd, hdn, hrc, hdisk⟩ := h
  refine ⟨hnd, hdn, ?_, ?_, ?_, ?_⟩
  · rintro ⟨k, v⟩ hkv
    have hl := lookupHash_of_mem_nodup hnd hkv
    rw [hrc k] at hl
    by_cases hslot : slotCount p.queue k = 0
    · rw [if_pos hslot] at hl
      cases hl
    · rw [if_neg hslot] at hl
      have hv := (Option.some.inj hl).symm
      refine ⟨hv, ?_⟩
      show v ≠ 0
      rw [hv]
      exact_mod_cast hslot
  · intro s hs
    exact (RCModels.isSome_iff hrc s.hash).2 (slotCount_pos_of_mem hs)
  · intro k hk
    exact (RCModels.isSome_iff hrc k).2 ((hdisk k).1 hk)
  · rintro ⟨k, v⟩ hkv
    have hl := lookupHash_of_mem_nodup hnd hkv
    have hs : (lookupHash p.refcount k).isSome := by rw [hl]; rfl
    exact (hdisk k).2 ((RCModels.isSome_iff hrc k).1 hs)

/-! ### Claim theorems -/

/-- C1: the eviction routine removes exactly
`min(current, max(0, len(queue) - capacity))` elements from the front of
the sequence, decrements `current` by that same amount, and releases each
removed slot's hash — each removed slot decrements its hash's refcount, and
a blob remains on disk exactly while the count is nonzero.  In particular,
with `current = 0` nothing is ever evicted, however far the queue exceeds
capacity. -/
theorem eviction_routine_spec (p : Playlist) (hwf : RefcountOK p) :
    p.evictCount =
      min p.current (max 0 ((p.queue.length : Int) - (p.size : Int))) ∧
    (p.removeSongs).queue = p.queue.drop p.evictCount.toNat ∧
    (p.removeSongs).current = p.current - p.evictCount ∧
    (∀ k : Nat, (lookupHash (p.removeSongs).refcount k).getD 0 =
      (lookupHash p.refcount k).getD 0 -
        (slotCount (p.queue.take p.evictCount.toNat) k : Int)) ∧
    (∀ k : Nat, k ∈ (p.removeSongs).disk ↔
      (lookupHash (p.removeSongs).refcount k).isSome) ∧
    (p.current = 0 → p.removeSongs = p) := by
  have hmodels := Playlist.models_of_refcountOK hwf
  obtain ⟨hq, hcur, _⟩ := Playlist.removeSongs_queue p
  obtain ⟨hnd', hdn', hrc', hdisk'⟩ := Playlist.removeSongs_models hmodels
  obtain ⟨hnd, hdn, hrc, hdisk⟩ := hmodels
  refine ⟨rfl, hq, hcur, fun k => ?_, fun k => ?_, fun hc0 => ?_⟩
  · have h1 := RCModels.getD_eq hrc' k
    rw [hq] at h1
    have h2 := RCModels.getD_eq hrc k
    have hsplit : slotCount p.queue k =
        slotCount (p.queue.take p.evictCount.toNat) k +
          slotCount (p.queue.drop p.evictCount.toNat) k := by
      conv_lhs => rw [← List.take_append_drop p.evictCount.toNat p.queue]
      rw [slotCount_append]
    rw [h1, h2]
    omega
  · rw [RCModels.isSome_iff hrc' k]
    rw [hq] at hdisk' ⊢
    exact hdisk' k
  · have he : p.evictCount = 0 := by
      unfold Playlist.evictCount
      rw [hc0]
      exact min_eq_left (le_max_left 0 _)
    unfold Playlist.removeSongs
    rw [he]
    simp [evictFrom_zero]

/-- C2: from the initial empty playlist, every sequence of operations keeps
the cursor "empty" (reported as `none`) exactly when the queue is empty,
and otherwise within `[0, len - 1]`; the eviction routine removes only a
prefix of length at most `current`, so the element at the cursor and
everything after it survive eviction (shifted down by the evicted count). -/
theorem cursor_invariant {f : Nat → Nat} {p : Playlist}
    (hr : Reachable f p) :
    (p.currentindex = none ↔ p.queue = []) ∧
    (p.queue ≠ [] →
      0 ≤ p.current ∧ p.current ≤ (p.queue.length : Int) - 1) ∧
    p.evictCount ≤ p.current ∧
    (p.removeSongs).queue = p.queue.drop p.evictCount.toNat ∧
    (∀ i : Nat, p.current.toNat ≤ i →
      (p.removeSongs).queue[i - p.evictCount.toNat]? = p.queue[i]?) := by
  obtain ⟨hm, h0, hlt, hemp⟩ := Playlist.reachable_inv hr
  obtain ⟨hq, hcur, _⟩ := Playlist.removeSongs_queue p
  refine ⟨?_, fun hne => ⟨h0, by have := hlt hne; omega⟩,
    evictCount_le_current p, hq, fun i hi => ?_⟩
  · unfold Playlist.currentindex
    by_cases hqe : p.queue = []
    · simp [hqe]
    · simp [hqe]
  · have hele : p.evictCount.toNat ≤ p.current.toNat := by
      have h1 := evictCount_le_current p
      omega
    rw [hq, List.getElem?_drop]
    rw [show p.evictCount.toNat + (i - p.evictCount.toNat) = i from by omega]

/-- C3: after any reachable sequence of operations, every refcount entry
equals the number of queue slots sharing that hash, and a blob is on disk
exactly for the hashes present in the map.  Concretely, enqueuing identical
bytes twice stores the blob once with count 2; removing one of the two
slots leaves the blob with count 1; removing the last slot deletes the blob
and drops the map entry. -/
theorem refcount_dedup_invariant :
    (∀ (f : Nat → Nat) (p : Playlist), Reachable f p →
      (∀ kv ∈ p.refcount, kv.2 = (slotCount p.queue kv.1 : Int)) ∧
      (∀ k : Nat, k ∈ p.disk ↔ (lookupHash p.refcount k).isSome)) ∧
    ((Playlist.init 10).enqueue id "A" 5).enqueue id "B" 5 =
      { queue := [⟨"A", 5, none⟩, ⟨"B", 5, none⟩], refcount := [(5, 2)],
        size := 10, current := 0, disk := [5] } ∧
    (((Playlist.init 10).enqueue id "A" 5).enqueue id "B" 5).remove 0 =
      some { queue := [⟨"B", 5, none⟩], refcount := [(5, 1)], size := 10,
             current := 0, disk := [5] } ∧
    ({ queue := [⟨"B", 5, none⟩], refcount := [(5, 1)], size := 10,
       current := 0, disk := [5] } : Playlist).remove 0 =
      some { queue := [], refcount := [], size := 10, current := 0,
             disk := [] } := by
  refine ⟨?_, by decide, by decide, by decide⟩
  intro f p hr
  have hinv := Playlist.reachable_inv hr
  obtain ⟨hnd, hdn, hrc, hdisk⟩ := hinv.1
  have hok := Playlist.refcountOK_of_models ⟨hnd, hdn, hrc, hdisk⟩
  refine ⟨fun kv hkv => (hok.2.2.1 kv hkv).1, fun k => ?_⟩
  rw [RCModels.isSome_iff hrc k]
  exact hdisk k

/-- Witness for C1 at a concrete over-capacity state. -/
theorem eviction_routine_spec_witness :
    (({ queue := [⟨"A", 1, none⟩, ⟨"B", 2, none⟩, ⟨"C", 3, none⟩],
        refcount := [(1, 1), (2, 1), (3, 1)], size := 2, current := 2,
        disk := [1, 2, 3] } : Playlist).removeSongs).queue =
      [⟨"B", 2, none⟩, ⟨"C", 3, none⟩] ∧
    (({ queue := [⟨"A", 1, none⟩, ⟨"B", 2, none⟩, ⟨"C", 3, none⟩],
        refcount := [(1, 1), (2, 1), (3, 1)], size := 2, current := 2,
        disk := [1, 2, 3] } : Playlist).removeSongs).current = 1 := by
  have h := eviction_routine_spec
    { queue := [⟨"A", 1, none⟩, ⟨"B", 2, none⟩, ⟨"C", 3, none⟩],
      refcount := [(1, 1), (2, 1), (3, 1)], size := 2, current := 2,
      disk := [1, 2, 3] } (by decide)
  refine ⟨?_, ?_⟩
  · rw [h.2.1]
    decide
  · rw [h.2.2.1]
    decide

/-- Witness for C2 at a concrete reachable state. -/
theorem cursor_invariant_witness :
    (((Playlist.init 10).enqueue id "A" 5).currentindex = none ↔
      ((Playlist.init 10).enqueue id "A" 5).queue = []) ∧
    (0 : Int) ≤ ((Playlist.init 10).enqueue id "A" 5).current ∧
    ((Playlist.init 10).enqueue id "A" 5).current ≤
      ((((Playlist.init 10).enqueue id "A" 5).queue.length : Int) - 1) := by
  have h := @cursor_invariant id ((Playlist.init 10).enqueue id "A" 5)
    (Reachable.enqueue "A" 5 (Reachable.init 10))
  exact ⟨h.1, (h.2.1 (by decide)).1, (h.2.1 (by decide)).2⟩

/-- Witness for C3: the invariant instantiated at a reachable state. -/
theorem refcount_dedup_invariant_witness :
    5 ∈ ((Playlist.init 10).enqueue id "A" 5).disk ↔
      (lookupHash ((Playlist.init 10).enqueue id "A" 5).refcount 5).isSome :=
  (refcount_dedup_invariant.1 id _
    (Reachable.enqueue "A" 5 (Reachable.init 10))).2 5

/-! ### Orchestrator reduction lemmas -/

theorem MusicServer.next_eq_none {m : MState}
    (hn : m.playlist.next = none) :
    MusicServer.next m =
      { state := { m with pstate := PState.stop }, cmds := [PCmd.stop],
        err := some (PyErr.indexError "no more songs") } := by
  unfold MusicServer.next
  simp only [hn]

theorem MusicServer.next_eq_some_play {m : MState} {pl : Playlist} {s : Song}
    (hn : m.playlist.next = some pl) (hp : m.pstate = PState.play)
    (hs : pl.currentSong = some s) :
    MusicServer.next m =
      { state := { playlist := pl, pstate := PState.play },
        cmds := [PCmd.stop, PCmd.play (some s)], err := none } := by
  unfold MusicServer.next
  simp only [hn, hp, hs]
  rfl

theorem MusicServer.next_eq_some_nplay {m : MState} {pl : Playlist}
    (hn : m.playlist.next = some pl) (hp : m.pstate ≠ PState.play) :
    MusicServer.next m =
      { state := { playlist := pl, pstate := PState.stop },
        cmds := [PCmd.stop], err := none } := by
  unfold MusicServer.next
  simp only [hn, if_neg hp]

theorem MusicServer.prev_eq_none {m : MState}
    (hn : m.playlist.prev = none) :
    MusicServer.prev m =
      { state := { m with pstate := PState.stop }, cmds := [PCmd.stop],
        err := some (PyErr.indexError "no more songs") } := by
  unfold MusicServer.prev
  simp only [hn]

theorem MusicServer.prev_eq_some_play {m : MState} {pl : Playlist} {s : Song}
    (hn : m.playlist.prev = some pl) (hp : m.pstate = PState.play)
    (hs : pl.currentSong = some s) :
    MusicServer.prev m =
      { state := { playlist := pl, pstate := PState.play },
        cmds := [PCmd.stop, PCmd.play (some s)], err := none } := by
  unfold MusicServer.prev
  simp only [hn, hp, hs]
  rfl

theorem MusicServer.prev_eq_some_nplay {m : MState} {pl : Playlist}
    (hn : m.playlist.prev = some pl) (hp : m.pstate ≠ PState.play) :
    MusicServer.prev m =
      { state := { playlist := pl, pstate := PState.stop },
        cmds := [PCmd.stop], err := none } := by
  unfold MusicServer.prev
  simp only [hn, if_neg hp]

/-- Reduction of `Playlist.remove` when the (Python-normalized) index is in
range: no exception, the slot at the normalized index is removed and its
hash released, and the cursor is adjusted with the RAW index comparison. -/
theorem Playlist.remove_eq_some' {p : Playlist} {i : Int}
    (hb : ¬ i > (p.queue.length : Int) - 1)
    (hin : 0 ≤ (if i < 0 then i + p.queue.length else i) ∧
           (if i < 0 then i + p.queue.length else i) <
             (p.queue.length : Int)) :
    ∃ song,
      p.queue[(if i < 0 then i + p.queue.length else i).toNat]? =
        some song ∧
      p.remove i = some { p with
        queue :=
          p.queue.eraseIdx (if i < 0 then i + p.queue.length else i).toNat,
        refcount := (releaseHash p.refcount p.disk song.hash).1,
        disk := (releaseHash p.refcount p.disk song.hash).2,
        current := max (min
          (if i < p.current then p.current - 1 else p.current)
          (((p.queue.eraseIdx
              (if i < 0 then i + p.queue.length else i).toNat).length : Int)
            - 1)) 0 } := by
  have hlt : (if i < 0 then i + p.queue.length else i).toNat <
      p.queue.length := by omega
  refine ⟨p.queue[(if i < 0 then i + p.queue.length else i).toNat],
    List.getElem?_eq_getElem hlt, ?_⟩
  unfold Playlist.remove
  rw [if_neg hb]
  simp only [if_pos hin, List.getElem?_eq_getElem hlt]

/-- C4 (amended): a `next` at the last element or a `prev` at index 0 fails
with the "no more songs" condition and leaves the playlist sequence and
cursor unchanged; however, the coordinator has already been unconditionally
stopped before the bounds check, so the failed call still issues a stop
command and playback ends up stopped rather than unchanged. -/
theorem nav_boundary_spec (m : MState) :
    (m.playlist.current + 1 > (m.playlist.queue.length : Int) - 1 →
      (MusicServer.next m).err = some (PyErr.indexError "no more songs") ∧
      (MusicServer.next m).state.playlist = m.playlist ∧
      (MusicServer.next m).cmds = [PCmd.stop] ∧
      (MusicServer.next m).state.pstate = PState.stop) ∧
    (m.playlist.current - 1 < 0 →
      (MusicServer.prev m).err = some (PyErr.indexError "no more songs") ∧
      (MusicServer.prev m).state.playlist = m.playlist ∧
      (MusicServer.prev m).cmds = [PCmd.stop] ∧
      (MusicServer.prev m).state.pstate = PState.stop) := by
  constructor
  · intro hcond
    have hn : m.playlist.next = none := by
      unfold Playlist.next
      rw [if_pos hcond]
    rw [MusicServer.next_eq_none hn]
    exact ⟨rfl, rfl, rfl, rfl⟩
  · intro hcond
    have hn : m.playlist.prev = none := by
      unfold Playlist.prev
      rw [if_pos hcond]
    rw [MusicServer.prev_eq_none hn]
    exact ⟨rfl, rfl, rfl, rfl⟩

/-- C4 counterexample: with a single-song playlist (cursor on the last
element) and the player playing, the boundary `next` fails with "no more
songs" and leaves the playlist unchanged, but the playback state is NOT the
same afterwards: the coordinator was stopped. -/
theorem nav_boundary_cex :
    (MusicServer.next
      { playlist := { queue := [⟨"A", 5, none⟩], refcount := [(5, 1)],
                      size := 10, current := 0, disk := [5] },
        pstate := PState.play }).err =
      some (PyErr.indexError "no more songs") ∧
    ({ playlist := { queue := [⟨"A", 5, none⟩], refcount := [(5, 1)],
                     size := 10, current := 0, disk := [5] },
       pstate := PState.play } : MState).playlist.currentindex =
      some ((({ playlist := { queue := [⟨"A", 5, none⟩], refcount := [(5, 1)],
                              size := 10, current := 0, disk := [5] },
                pstate := PState.play } : MState).playlist.queue.length :
              Int) - 1) ∧
    (MusicServer.next
      { playlist := { queue := [⟨"A", 5, none⟩], refcount := [(5, 1)],
                      size := 10, current := 0, disk := [5] },
        pstate := PState.play }).state.pstate ≠
      ({ playlist := { queue := [⟨"A", 5, none⟩], refcount := [(5, 1)],
                       size := 10, current := 0, disk := [5] },
         pstate := PState.play } : MState).pstate := by decide

/-- C5: a successful `next`/`prev` captures the playback state before
mutating, always stops the coordinator first, and requests `play` on the
new current track exactly when the captured state was playing; a captured
paused or stopped state requests no play, leaving the new track stopped. -/
theorem nav_resume_policy (m : MState) :
    (MusicServer.next m).cmds.head? = some PCmd.stop ∧
    (MusicServer.prev m).cmds.head? = some PCmd.stop ∧
    ((MusicServer.next m).err = none →
      (m.pstate = PState.play →
        ∃ s, (MusicServer.next m).state.playlist.currentSong = some s ∧
          (MusicServer.next m).cmds = [PCmd.stop, PCmd.play (some s)] ∧
          (MusicServer.next m).state.pstate = PState.play) ∧
      (m.pstate ≠ PState.play →
        (MusicServer.next m).cmds = [PCmd.stop] ∧
        (MusicServer.next m).state.pstate = PState.stop)) ∧
    ((MusicServer.prev m).err = none →
      (m.pstate = PState.play →
        ∃ s, (MusicServer.prev m).state.playlist.currentSong = some s ∧
          (MusicServer.prev m).cmds = [PCmd.stop, PCmd.play (some s)] ∧
          (MusicServer.prev m).state.pstate = PState.play) ∧
      (m.pstate ≠ PState.play →
        (MusicServer.prev m).cmds = [PCmd.stop] ∧
        (MusicServer.prev m).state.pstate = PState.stop)) := by
  have hnext : ∀ r : MResult, r = MusicServer.next m →
      r.cmds.head? = some PCmd.stop ∧
      (r.err = none →
        (m.pstate = PState.play →
          ∃ s, r.state.playlist.currentSong = some s ∧
            r.cmds = [PCmd.stop, PCmd.play (some s)] ∧
            r.state.pstate = PState.play) ∧
        (m.pstate ≠ PState.play →
          r.cmds = [PCmd.stop] ∧ r.state.pstate = PState.stop)) := by
    intro r hr
    cases hn : m.playlist.next with
    | none =>
      rw [MusicServer.next_eq_none hn] at hr
      subst hr
      exact ⟨rfl, fun habs => by cases habs⟩
    | some pl =>
      by_cases hp : m.pstate = PState.play
      · cases hs : pl.currentSong with
        | none =>
          have : MusicServer.next m =
              { state := { playlist := pl, pstate := PState.stop },
                cmds := [PCmd.stop], err := some PyErr.attributeError } := by
            unfold MusicServer.next
            simp only [hn, hp, hs]
            rfl
          rw [this] at hr
          subst hr
          exact ⟨rfl, fun habs => by cases habs⟩
        | some s =>
          rw [MusicServer.next_eq_some_play hn hp hs] at hr
          subst hr
          refine ⟨rfl, fun _ => ⟨fun _ => ⟨s, hs, rfl, rfl⟩,
            fun hnp => absurd hp hnp⟩⟩
      · rw [MusicServer.next_eq_some_nplay hn hp] at hr
        subst hr
        exact ⟨rfl, fun _ => ⟨fun hpp => absurd hpp hp, fun _ => ⟨rfl, rfl⟩⟩⟩
  have hprev : ∀ r : MResult, r = MusicServer.prev m →
      r.cmds.head? = some PCmd.stop ∧
      (r.err = none →
        (m.pstate = PState.play →
          ∃ s, r.state.playlist.currentSong = some s ∧
            r.cmds = [PCmd.stop, PCmd.play (some s)] ∧
            r.state.pstate = PState.play) ∧
        (m.pstate ≠ PState.play →
          r.cmds = [PCmd.stop] ∧ r.state.pstate = PState.stop)) := by
    intro r hr
    cases hn : m.playlist.prev with
    | none =>
      rw [MusicServer.prev_eq_none hn] at hr
      subst hr
      exact ⟨rfl, fun habs => by cases habs⟩
    | some pl =>
      by_cases hp : m.pstate = PState.play
      · cases hs : pl.currentSong with
        | none =>
          have : MusicServer.prev m =
              { state := { playlist := pl, pstate := PState.stop },
                cmds := [PCmd.stop], err := some PyErr.attributeError } := by
            unfold MusicServer.prev
            simp only [hn, hp, hs]
            rfl
          rw [this] at hr
          subst hr
          exact ⟨rfl, fun habs => by cases habs⟩
        | some s =>
          rw [MusicServer.prev_eq_some_play hn hp hs] at hr
          subst hr
          refine ⟨rfl, fun _ => ⟨fun _ => ⟨s, hs, rfl, rfl⟩,
            fun hnp => absurd hp hnp⟩⟩
      · rw [MusicServer.prev_eq_some_nplay hn hp] at hr
        subst hr
        exact ⟨rfl, fun _ => ⟨fun hpp => absurd hpp hp, fun _ => ⟨rfl, rfl⟩⟩⟩
  obtain ⟨n1, n2⟩ := hnext (MusicServer.next m) rfl
  obtain ⟨p1, p2⟩ := hprev (MusicServer.prev m) rfl
  exact ⟨n1, p1, n2, p2⟩

/-- C8: when the end-of-stream callback fires with the cursor on the last
track, the attempted `next` fails with "no more songs", the error is
swallowed (the callback reports no exception), and the final state is
stopped with the playlist unchanged; when the cursor is not on the last
track, the callback advances to the next track and resumes play if the
state was playing. -/
theorem end_of_queue_spec (m : MState) (hc : CursorOK m.playlist) :
    (m.playlist.queue ≠ [] →
      m.playlist.current = (m.playlist.queue.length : Int) - 1 →
      (MusicServer.playereos m).err = none ∧
      (MusicServer.playereos m).state.playlist = m.playlist ∧
      (MusicServer.playereos m).state.pstate = PState.stop) ∧
    (m.playlist.current + 1 ≤ (m.playlist.queue.length : Int) - 1 →
      (MusicServer.playereos m).err = none ∧
      (MusicServer.playereos m).state.playlist.currentSong =
        m.playlist.queue[(m.playlist.current + 1).toNat]? ∧
      (m.pstate = PState.play →
        (MusicServer.playereos m).state.pstate = PState.play)) := by
  obtain ⟨h0, hltq, hemp⟩ := hc
  constructor
  · intro hne hlast
    have hcond : m.playlist.current + 1 >
        (m.playlist.queue.length : Int) - 1 := by omega
    have hn : m.playlist.next = none := by
      unfold Playlist.next
      rw [if_pos hcond]
    unfold MusicServer.playereos
    rw [MusicServer.next_eq_none hn]
    exact ⟨rfl, rfl, rfl⟩
  · intro hnle
    set p1 : Playlist := { m.playlist with current := m.playlist.current + 1 }
      with hp1
    have hp1c : p1.current = m.playlist.current + 1 := rfl
    have hp1q : p1.queue = m.playlist.queue := rfl
    have hcond : ¬ (m.playlist.current + 1 >
        (m.playlist.queue.length : Int) - 1) := by omega
    have hn : m.playlist.next = some p1.removeSongs := by
      unfold Playlist.next
      rw [if_neg hcond]
    obtain ⟨hplq, hplc, _⟩ := Playlist.removeSongs_queue p1
    rw [hp1q] at hplq
    rw [hp1c] at hplc
    have he0 : 0 ≤ p1.evictCount := by
      apply evictCount_nonneg
      rw [hp1c]
      omega
    have hele : p1.evictCount ≤ m.playlist.current + 1 := by
      have h := evictCount_le_current p1
      rw [hp1c] at h
      exact h
    have hlenq : p1.removeSongs.queue.length =
        m.playlist.queue.length - p1.evictCount.toNat := by
      rw [hplq, List.length_drop]
    have hplne : p1.removeSongs.queue ≠ [] := by
      intro habs
      have hl0 : p1.removeSongs.queue.length = 0 := by rw [habs]; rfl
      rw [hlenq] at hl0
      omega
    have hlt2 : (m.playlist.current + 1).toNat < m.playlist.queue.length := by
      omega
    have hcs : p1.removeSongs.currentSong =
        m.playlist.queue[(m.playlist.current + 1).toNat]? := by
      unfold Playlist.currentSong
      rw [if_neg hplne, hplq, hplc, List.getElem?_drop]
      congr 1
      omega
    have hs2 : m.playlist.queue[(m.playlist.current + 1).toNat]? =
        some m.playlist.queue[(m.playlist.current + 1).toNat] :=
      List.getElem?_eq_getElem hlt2
    by_cases hp : m.pstate = PState.play
    · have hr := MusicServer.next_eq_some_play hn hp (hcs.trans hs2)
      unfold MusicServer.playereos
      rw [hr]
      exact ⟨rfl, hcs, fun _ => rfl⟩
    · have hr := MusicServer.next_eq_some_nplay hn hp
      unfold MusicServer.playereos
      rw [hr]
      exact ⟨rfl, hcs, fun hpp => absurd hpp hp⟩

/-- Reduction of orchestrator `remove` in the current-index branch when the
playlist-level removal succeeds. -/
theorem MusicServer.remove_eq_current {m : MState} {i : Int} {pl : Playlist}
    (hneg : ¬ i < 0) (hci : m.playlist.currentindex = some i)
    (hrem : m.playlist.remove i = some pl) :
    MusicServer.remove m i =
      match m.pstate, pl.currentSong with
      | PState.play, some s =>
        { state := { playlist := pl, pstate := PState.play },
          cmds := [PCmd.stop, PCmd.play (some s)], err := none }
      | _, _ => { state := { playlist := pl, pstate := PState.stop },
                  cmds := [PCmd.stop], err := none } := by
  unfold MusicServer.remove
  rw [if_neg hneg, if_pos hci]
  simp only [hrem]

/-- C6: orchestrator `remove` rejects a negative index with a value error
and touches nothing; removing the slot at the current index while playing
stops playback, removes the slot, and resumes play on the new current track
exactly when one exists; removing any other index issues no player command
at all and leaves the playback state untouched. -/
theorem remove_frame_spec (m : MState) (i : Int) (hc : CursorOK m.playlist) :
    (i < 0 →
      MusicServer.remove m i =
        { state := m, cmds := [],
          err := some (PyErr.valueError "index must be non-negative") }) ∧
    (m.playlist.currentindex ≠ some i →
      (MusicServer.remove m i).cmds = [] ∧
      (MusicServer.remove m i).state.pstate = m.pstate) ∧
    (m.playlist.currentindex = some i → m.pstate = PState.play →
      (MusicServer.remove m i).err = none ∧
      ∃ pl, m.playlist.remove i = some pl ∧
        (MusicServer.remove m i).state.playlist = pl ∧
        ((∃ s, pl.currentSong = some s ∧
            (MusicServer.remove m i).cmds =
              [PCmd.stop, PCmd.play (some s)] ∧
            (MusicServer.remove m i).state.pstate = PState.play) ∨
         (pl.currentSong = none ∧
            (MusicServer.remove m i).cmds = [PCmd.stop] ∧
            (MusicServer.remove m i).state.pstate = PState.stop))) := by
  obtain ⟨h0, hltq, hemp⟩ := hc
  refine ⟨fun hneg => ?_, fun hne => ?_, fun hci hp => ?_⟩
  · unfold MusicServer.remove
    rw [if_pos hneg]
  · unfold MusicServer.remove
    by_cases hneg : i < 0
    · rw [if_pos hneg]
      exact ⟨rfl, rfl⟩
    · rw [if_neg hneg, if_neg hne]
      cases hrem : m.playlist.remove i with
      | none => exact ⟨rfl, rfl⟩
      | some pl => exact ⟨rfl, rfl⟩
  · have hqne : m.playlist.queue ≠ [] := by
      intro habs
      rw [show m.playlist.currentindex = none by
        unfold Playlist.currentindex; rw [if_pos habs]] at hci
      cases hci
    have hieq : i = m.playlist.current := by
      unfold Playlist.currentindex at hci
      rw [if_neg hqne] at hci
      exact (Option.some.inj hci).symm
    have hlti : i < (m.playlist.queue.length : Int) := by
      rw [hieq]
      exact hltq hqne
    have h0i : 0 ≤ i := by rw [hieq]; exact h0
    have hnneg : ¬ i < 0 := by omega
    have hb : ¬ i > (m.playlist.queue.length : Int) - 1 := by omega
    have hin : 0 ≤ (if i < 0 then i + m.playlist.queue.length else i) ∧
        (if i < 0 then i + m.playlist.queue.length else i) <
          (m.playlist.queue.length : Int) := by
      rw [if_neg hnneg]
      omega
    obtain ⟨song, hsong, hrem0⟩ := Playlist.remove_eq_some' hb hin
    obtain ⟨pl, hrem⟩ : ∃ pl, m.playlist.remove i = some pl := ⟨_, hrem0⟩
    rw [MusicServer.remove_eq_current hnneg hci hrem, hp]
    cases hcs : pl.currentSong with
    | none => exact ⟨rfl, pl, hrem, rfl, Or.inr ⟨hcs, rfl, rfl⟩⟩
    | some s => exact ⟨rfl, pl, hrem, rfl, Or.inl ⟨s, hcs, rfl, rfl⟩⟩

/-- C10: removing the slot at the current index while the captured state is
paused stops the coordinator and never requests play again, so the new
current track ends up stopped — the paused state is lost, mirroring the
navigation-while-paused policy. -/
theorem remove_current_paused (m : MState) (i : Int)
    (hp : m.pstate = PState.pause) (hci : m.playlist.currentindex = some i)
    (hc : CursorOK m.playlist) :
    (MusicServer.remove m i).cmds = [PCmd.stop] ∧
    (MusicServer.remove m i).state.pstate = PState.stop ∧
    (MusicServer.remove m i).err = none := by
  obtain ⟨h0, hltq, hemp⟩ := hc
  have hqne : m.playlist.queue ≠ [] := by
    intro habs
    rw [show m.playlist.currentindex = none by
      unfold Playlist.currentindex; rw [if_pos habs]] at hci
    cases hci
  have hieq : i = m.playlist.current := by
    unfold Playlist.currentindex at hci
    rw [if_neg hqne] at hci
    exact (Option.some.inj hci).symm
  have hlti : i < (m.playlist.queue.length : Int) := by
    rw [hieq]
    exact hltq hqne
  have h0i : 0 ≤ i := by rw [hieq]; exact h0
  have hnneg : ¬ i < 0 := by omega
  have hb : ¬ i > (m.playlist.queue.length : Int) - 1 := by omega
  have hin : 0 ≤ (if i < 0 then i + m.playlist.queue.length else i) ∧
      (if i < 0 then i + m.playlist.queue.length else i) <
        (m.playlist.queue.length : Int) := by
    rw [if_neg hnneg]
    omega
  obtain ⟨song, hsong, hrem0⟩ := Playlist.remove_eq_some' hb hin
  obtain ⟨pl, hrem⟩ : ∃ pl, m.playlist.remove i = some pl := ⟨_, hrem0⟩
  rw [MusicServer.remove_eq_current hnneg hci hrem, hp]
  exact ⟨rfl, rfl, rfl⟩

/-- C9 (amended): on a playlist with a non-negative cursor, `remove` with a
negative index `-n ≤ i ≤ -1` does not raise — the bounds check only rejects
`i > n - 1` — and removes the element at position `n + i` (Python negative
indexing); only the orchestrator layer rejects negative indices with a
value error.  The cursor adjustment, however, compares the RAW negative
index against the cursor, so it always decrements the cursor (then clamps)
— unlike the equivalent positive index when `n + i ≥ current`. -/
theorem remove_negative_index (p : Playlist) (i : Int) (h0 : 0 ≤ p.current)
    (hlb : -(p.queue.length : Int) ≤ i) (hub : i ≤ -1) :
    ∃ q, p.remove i = some q ∧
      q.queue = p.queue.eraseIdx (i + p.queue.length).toNat ∧
      q.queue.length + 1 = p.queue.length ∧
      q.current =
        max (min (p.current - 1) ((q.queue.length : Int) - 1)) 0 ∧
      (∀ st : PState, MusicServer.remove ⟨p, st⟩ i =
        { state := ⟨p, st⟩, cmds := [],
          err := some (PyErr.valueError "index must be non-negative") }) := by
  have hneg : i < 0 := by omega
  have hb : ¬ i > (p.queue.length : Int) - 1 := by omega
  have hin : 0 ≤ (if i < 0 then i + p.queue.length else i) ∧
      (if i < 0 then i + p.queue.length else i) <
        (p.queue.length : Int) := by
    rw [if_pos hneg]
    omega
  obtain ⟨song, hsong, hrem⟩ := Playlist.remove_eq_some' hb hin
  rw [if_pos hneg] at hrem
  have hltj : (i + p.queue.length).toNat < p.queue.length := by omega
  have hic : i < p.current := by omega
  refine ⟨_, hrem, rfl, List.length_eraseIdx_add_one hltj, ?_, fun st => ?_⟩
  · show max (min (if i < p.current then p.current - 1 else p.current)
      (((p.queue.eraseIdx (i + p.queue.length).toNat).length : Int) - 1)) 0 =
      max (min (p.current - 1)
        (((p.queue.eraseIdx (i + p.queue.length).toNat).length : Int) - 1)) 0
    rw [if_pos hic]
  · unfold MusicServer.remove
    rw [if_pos hneg]

/-- C9 counterexample: removing index `-1` from a five-song playlist with
cursor 2 removes the same element as removing index 4, but yields cursor 1,
whereas the equivalent positive index 4 leaves the cursor at 2 — the cursor
is NOT adjusted as if the positive index had been given. -/
theorem remove_negative_index_cex :
    (({ queue := [⟨"A", 1, none⟩, ⟨"B", 2, none⟩, ⟨"C", 3, none⟩,
                  ⟨"D", 4, none⟩, ⟨"E", 5, none⟩],
        refcount := [(1, 1), (2, 1), (3, 1), (4, 1), (5, 1)], size := 10,
        current := 2, disk := [1, 2, 3, 4, 5] } : Playlist).remove
      (-1)).map Playlist.current = some 1 ∧
    (({ queue := [⟨"A", 1, none⟩, ⟨"B", 2, none⟩, ⟨"C", 3, none⟩,
                  ⟨"D", 4, none⟩, ⟨"E", 5, none⟩],
        refcount := [(1, 1), (2, 1), (3, 1), (4, 1), (5, 1)], size := 10,
        current := 2, disk := [1, 2, 3, 4, 5] } : Playlist).remove
      4).map Playlist.current = some 2 ∧
    (({ queue := [⟨"A", 1, none⟩, ⟨"B", 2, none⟩, ⟨"C", 3, none⟩,
                  ⟨"D", 4, none⟩, ⟨"E", 5, none⟩],
        refcount := [(1, 1), (2, 1), (3, 1), (4, 1), (5, 1)], size := 10,
        current := 2, disk := [1, 2, 3, 4, 5] } : Playlist).remove
      (-1)).map Playlist.queue =
    (({ queue := [⟨"A", 1, none⟩, ⟨"B", 2, none⟩, ⟨"C", 3, none⟩,
                  ⟨"D", 4, none⟩, ⟨"E", 5, none⟩],
        refcount := [(1, 1), (2, 1), (3, 1), (4, 1), (5, 1)], size := 10,
        current := 2, disk := [1, 2, 3, 4, 5] } : Playlist).remove
      4).map Playlist.queue := by decide

/-- C7 (amended): `skipBackward`/`skipForward` seek to `max(position-10,0)`
and `min(position+10, duration)` seconds from the last observed position;
they fail exactly when `seek` (with a valid fraction) fails OR the last
observed position is unknown — one precondition beyond `seek`'s. -/
theorem skip_spec (pl : Player) :
    ((Player.skipbackwards pl).isOk ↔
      ((Player.seek pl 0).isOk ∧ pl.position ≠ none)) ∧
    ((Player.skipforwards pl).isOk ↔
      ((Player.seek pl 0).isOk ∧ pl.position ≠ none)) ∧
    (∀ (t : String) (h : Nat) (d pos : Rat),
      pl.state ≠ PState.stop → pl.song = some ⟨t, h, some d⟩ →
      pl.position = some pos →
      Player.skipbackwards pl = Except.ok (max (pos - 10) 0) ∧
      Player.skipforwards pl = Except.ok (min (pos + 10) d)) := by
  obtain ⟨st, sng, posn⟩ := pl
  by_cases hst : st = PState.stop
  · subst hst
    refine ⟨?_, ?_, ?_⟩
    · simp [Player.skipbackwards, Player.seek, Except.isOk, Except.toBool]
    · simp [Player.skipforwards, Player.seek, Except.isOk, Except.toBool]
    · intro t h d pos habs
      exact absurd rfl habs
  · cases sng with
    | none =>
      refine ⟨?_, ?_, ?_⟩
      · simp [Player.skipbackwards, Player.seek, Except.isOk, Except.toBool, hst]
      · simp [Player.skipforwards, Player.seek, Except.isOk, Except.toBool, hst]
      · intro t h d pos _ habs
        cases habs
    | some s =>
      obtain ⟨t0, h0, dopt⟩ := s
      cases dopt with
      | none =>
        refine ⟨?_, ?_, ?_⟩
        · simp [Player.skipbackwards, Player.seek, Except.isOk, Except.toBool, hst]
        · simp [Player.skipforwards, Player.seek, Except.isOk, Except.toBool, hst]
        · intro t h d pos _ habs
          cases habs
      | some d0 =>
        cases posn with
        | none =>
          refine ⟨?_, ?_, ?_⟩
          · simp [Player.skipbackwards, Player.seek, Except.isOk, Except.toBool, hst]
          · simp [Player.skipforwards, Player.seek, Except.isOk, Except.toBool, hst]
          · intro t h d pos _ _ habs
            cases habs
        | some pos0 =>
          refine ⟨?_, ?_, ?_⟩
          · simp [Player.skipbackwards, Player.seek, Except.isOk, Except.toBool, hst]
          · simp [Player.skipforwards, Player.seek, Except.isOk, Except.toBool, hst]
          · intro t h d pos _ hsg hps
            simp only [Option.some.injEq, Song.mk.injEq] at hsg hps
            obtain ⟨rfl, rfl, rfl⟩ := hsg
            subst hps
            exact ⟨by simp [Player.skipbackwards, hst],
              by simp [Player.skipforwards, hst]⟩

/-- C7 counterexample: with the player playing, duration known, but no
position observed yet, `seek` succeeds while both skips fail — so the skips
do NOT fail under exactly `seek`'s preconditions (stopped or unknown
duration). -/
theorem skip_preconditions_cex :
    ((⟨PState.play, some ⟨"A", 7, some 100⟩, none⟩ : Player).state ≠
      PState.stop) ∧
    ((⟨PState.play, some ⟨"A", 7, some 100⟩, none⟩ : Player).song =
      some ⟨"A", 7, some 100⟩) ∧
    (Player.seek ⟨PState.play, some ⟨"A", 7, some 100⟩, none⟩ 1).isOk =
      true ∧
    (Player.skipforwards
      ⟨PState.play, some ⟨"A", 7, some 100⟩, none⟩).isOk = false ∧
    (Player.skipbackwards
      ⟨PState.play, some ⟨"A", 7, some 100⟩, none⟩).isOk = false := by
  refine ⟨by decide, rfl, ?_, ?_, ?_⟩
  · simp [Player.seek, Except.isOk, Except.toBool]
  · simp [Player.skipforwards, Except.isOk, Except.toBool]
  · simp [Player.skipbackwards, Except.isOk, Except.toBool]

/-- Witness for C4 (amended) at a concrete boundary state. -/
theorem nav_boundary_spec_witness :
    (MusicServer.next
      { playlist := { queue := [⟨"A", 5, none⟩], refcount := [(5, 1)],
                      size := 10, current := 0, disk := [5] },
        pstate := PState.pause }).err =
      some (PyErr.indexError "no more songs") ∧
    (MusicServer.next
      { playlist := { queue := [⟨"A", 5, none⟩], refcount := [(5, 1)],
                      size := 10, current := 0, disk := [5] },
        pstate := PState.pause }).state.playlist =
      ({ playlist := { queue := [⟨"A", 5, none⟩], refcount := [(5, 1)],
                       size := 10, current := 0, disk := [5] },
         pstate := PState.pause } : MState).playlist ∧
    (MusicServer.next
      { playlist := { queue := [⟨"A", 5, none⟩], refcount := [(5, 1)],
                      size := 10, current := 0, disk := [5] },
        pstate := PState.pause }).cmds = [PCmd.stop] ∧
    (MusicServer.next
      { playlist := { queue := [⟨"A", 5, none⟩], refcount := [(5, 1)],
                      size := 10, current := 0, disk := [5] },
        pstate := PState.pause }).state.pstate = PState.stop :=
  (nav_boundary_spec
    { playlist := { queue := [⟨"A", 5, none⟩], refcount := [(5, 1)],
                    size := 10, current := 0, disk := [5] },
      pstate := PState.pause }).1 (by decide)

/-- Witness for C5: navigating while paused leaves the new track stopped. -/
theorem nav_resume_policy_witness :
    (MusicServer.next
      { playlist := { queue := [⟨"A", 1, none⟩, ⟨"B", 2, none⟩],
                      refcount := [(1, 1), (2, 1)], size := 10,
                      current := 0, disk := [1, 2] },
        pstate := PState.pause }).cmds.head? = some PCmd.stop ∧
    (MusicServer.next
      { playlist := { queue := [⟨"A", 1, none⟩, ⟨"B", 2, none⟩],
                      refcount := [(1, 1), (2, 1)], size := 10,
                      current := 0, disk := [1, 2] },
        pstate := PState.pause }).cmds = [PCmd.stop] ∧
    (MusicServer.next
      { playlist := { queue := [⟨"A", 1, none⟩, ⟨"B", 2, none⟩],
                      refcount := [(1, 1), (2, 1)], size := 10,
                      current := 0, disk := [1, 2] },
        pstate := PState.pause }).state.pstate = PState.stop :=
  ⟨(nav_resume_policy
      { playlist := { queue := [⟨"A", 1, none⟩, ⟨"B", 2, none⟩],
                      refcount := [(1, 1), (2, 1)], size := 10,
                      current := 0, disk := [1, 2] },
        pstate := PState.pause }).1,
   ((nav_resume_policy
      { playlist := { queue := [⟨"A", 1, none⟩, ⟨"B", 2, none⟩],
                      refcount := [(1, 1), (2, 1)], size := 10,
                      current := 0, disk := [1, 2] },
        pstate := PState.pause }).2.2.1 (by decide)).2 (by decide)⟩

/-- Witness for C6: a negative index is rejected without touching state. -/
theorem remove_frame_spec_witness :
    MusicServer.remove
      { playlist := { queue := [⟨"A", 1, none⟩, ⟨"B", 2, none⟩],
                      refcount := [(1, 1), (2, 1)], size := 10,
                      current := 0, disk := [1, 2] },
        pstate := PState.play } (-1) =
      { state := { playlist := { queue := [⟨"A", 1, none⟩, ⟨"B", 2, none⟩],
                                 refcount := [(1, 1), (2, 1)], size := 10,
                                 current := 0, disk := [1, 2] },
                   pstate := PState.play },
        cmds := [],
        err := some (PyErr.valueError "index must be non-negative") } :=
  (remove_frame_spec
    { playlist := { queue := [⟨"A", 1, none⟩, ⟨"B", 2, none⟩],
                    refcount := [(1, 1), (2, 1)], size := 10,
                    current := 0, disk := [1, 2] },
      pstate := PState.play } (-1) (by decide)).1 (by decide)

/-- Witness for C7 (amended) at a concrete playing state. -/
theorem skip_spec_witness :
    Player.skipbackwards
      ⟨PState.play, some ⟨"A", 7, some 100⟩, some 30⟩ =
      Except.ok (max ((30 : Rat) - 10) 0) ∧
    Player.skipforwards
      ⟨PState.play, some ⟨"A", 7, some 100⟩, some 30⟩ =
      Except.ok (min ((30 : Rat) + 10) 100) :=
  (skip_spec ⟨PState.play, some ⟨"A", 7, some 100⟩, some 30⟩).2.2
    "A" 7 100 30 (by decide) rfl rfl

/-- Witness for C8 at a concrete last-track state. -/
theorem end_of_queue_spec_witness :
    (MusicServer.playereos
      { playlist := { queue := [⟨"A", 5, none⟩], refcount := [(5, 1)],
                      size := 10, current := 0, disk := [5] },
        pstate := PState.play }).err = none ∧
    (MusicServer.playereos
      { playlist := { queue := [⟨"A", 5, none⟩], refcount := [(5, 1)],
                      size := 10, current := 0, disk := [5] },
        pstate := PState.play }).state.playlist =
      ({ playlist := { queue := [⟨"A", 5, none⟩], refcount := [(5, 1)],
                       size := 10, current := 0, disk := [5] },
         pstate := PState.play } : MState).playlist ∧
    (MusicServer.playereos
      { playlist := { queue := [⟨"A", 5, none⟩], refcount := [(5, 1)],
                      size := 10, current := 0, disk := [5] },
        pstate := PState.play }).state.pstate = PState.stop :=
  (end_of_queue_spec
    { playlist := { queue := [⟨"A", 5, none⟩], refcount := [(5, 1)],
                    size := 10, current := 0, disk := [5] },
      pstate := PState.play } (by decide)).1 (by decide) (by decide)

/-- Witness for C9 (amended): removing index -1 from a five-song playlist
with cursor 2 succeeds and leaves the cursor at 1. -/
theorem remove_negative_index_witness :
    (({ queue := [⟨"A", 1, none⟩, ⟨"B", 2, none⟩, ⟨"C", 3, none⟩,
                  ⟨"D", 4, none⟩, ⟨"E", 5, none⟩],
        refcount := [(1, 1), (2, 1), (3, 1), (4, 1), (5, 1)], size := 10,
        current := 2, disk := [1, 2, 3, 4, 5] } : Playlist).remove
      (-1)).map Playlist.current = some 1 := by
  obtain ⟨q, hq, hqq, hlen, hcur, horch⟩ :=
    remove_negative_index
      { queue := [⟨"A", 1, none⟩, ⟨"B", 2, none⟩, ⟨"C", 3, none⟩,
                  ⟨"D", 4, none⟩, ⟨"E", 5, none⟩],
        refcount := [(1, 1), (2, 1), (3, 1), (4, 1), (5, 1)], size := 10,
        current := 2, disk := [1, 2, 3, 4, 5] } (-1)
      (by decide) (by decide) (by decide)
  rw [hq]
  rw [hqq] at hcur
  simp only [Option.map_some']
  rw [hcur]
  decide

/-- Witness for C10: removing the current track while paused stops. -/
theorem remove_current_paused_witness :
    (MusicServer.remove
      { playlist := { queue := [⟨"A", 1, none⟩, ⟨"B", 2, none⟩],
                      refcount := [(1, 1), (2, 1)], size := 10,
                      current := 0, disk := [1, 2] },
        pstate := PState.pause } 0).cmds = [PCmd.stop] ∧
    (MusicServer.remove
      { playlist := { queue := [⟨"A", 1, none⟩, ⟨"B", 2, none⟩],
                      refcount := [(1, 1), (2, 1)], size := 10,
                      current := 0, disk := [1, 2] },
        pstate := PState.pause } 0).state.pstate = PState.stop ∧
    (MusicServer.remove
      { playlist := { queue := [⟨"A", 1, none⟩, ⟨"B", 2, none⟩],
                      refcount := [(1, 1), (2, 1)], size := 10,
                      current := 0, disk := [1, 2] },
        pstate := PState.pause } 0).err = none :=
  remove_current_paused
    { playlist := { queue := [⟨"A", 1, none⟩, ⟨"B", 2, none⟩],
                    refcount := [(1, 1), (2, 1)], size := 10,
                    current := 0, disk := [1, 2] },
      pstate := PState.pause } 0 rfl (by decide) (by decide)
